import Mathlib

/-!
Verification of the protocol/session core of the `gp3attention` eye-tracker
client against its implementation (`src/gp3Interface.ts`, `src/openGazeTracker.ts`).

Wire data is modelled as `List Char` (the character sequence of the JavaScript
strings involved).  Stateful operations are modelled by explicit state passing.
-/

namespace GP3

/-- Characters removed by JavaScript `String.prototype.trim` that can occur in
the wire protocol (space, tab, carriage return, line feed).  `trim` also
removes other Unicode whitespace, which never occurs here. -/
def jsWhitespaceChar (c : Char) : Bool :=
  c = ' ' || c = '\t' || c = '\r' || c = '\n'

/-- Models JavaScript `s.trim()` on the character list of `s`: drop leading and
trailing whitespace. -/
def jsTrim (l : List Char) : List Char :=
  ((l.dropWhile jsWhitespaceChar).reverse.dropWhile jsWhitespaceChar).reverse

/-- Prepend a non-newline character to a split result: it extends the first
complete line when one exists, otherwise the (entirely unfinished) data is all
trailing partial. -/
def consLine (c : Char) : List (List Char) × List Char → List (List Char) × List Char
  | ([], p) => ([], c :: p)
  | (h :: t, p) => ((c :: h) :: t, p)

/-- Models JavaScript `data.split("\n")`, separating the result into the
complete (newline-terminated) lines and the trailing element after the last
line feed.  `split("\n")` returns the complete lines followed by that trailing
element (`""` when the data ends in a newline), so `splitLines l` is exactly
(`lines` with the last element popped, the popped last element). -/
def splitLines : List Char → List (List Char) × List Char
  | [] => ([], [])
  | c :: rest =>
    if c = '\n' then ([] :: (splitLines rest).1, (splitLines rest).2)
    else consLine c (splitLines rest)

/-! ### Wire Codec: outgoing message construction (`gp3Interface.send`) -/

/-- Character list of `"SET"`. -/
def sSET : List Char := ['S', 'E', 'T']

/-- Character list of `"GET"`. -/
def sGET : List Char := ['G', 'E', 'T']

/-- Character list of `"ID"`. -/
def sID : List Char := ['I', 'D']

/-- Character list of `"ACK"`. -/
def sACK : List Char := ['A', 'C', 'K']

/-- Character list of the empty-record marker line `<REC />` that
`processIncoming` skips. -/
def recMarker : List Char := ['<', 'R', 'E', 'C', ' ', '/', '>']

/-- One attribute fragment as appended by the parameter loop in `send`:
`message += \` ${key}="${value}"\``, i.e. a space, the key, `="`, the value
and a closing quote. -/
def quoteAttr (kv : List Char × List Char) : List Char :=
  ' ' :: (kv.1 ++ '=' :: '"' :: (kv.2 ++ ['"']))

/-- Message construction in `gp3Interface.send`: start from
`<SET|GET ID="<id>"` (which is the same character sequence as `<` plus the
mode word plus one `ID` attribute fragment), append each parameter fragment in
order with the loop, then append `\x20/>\r\n`. -/
def encodeMessage (set : Bool) (id : List Char)
    (parameters : List (List Char × List Char)) : List Char :=
  parameters.foldl (fun m kv => m ++ quoteAttr kv)
      ('<' :: (if set then sSET else sGET) ++ quoteAttr (sID, id))
    ++ [' ', '/', '>'] ++ ['\r', '\n']

/-- Modelled from the spec (`encode(command) -> string` emits
`<SET|GET ID="<id>" KEY1="v1" KEY2="v2" ... />\r\n`, parameter order preserved
from input): the mode word, then the `ID` attribute followed by every
parameter attribute in insertion order, then the self-closing tail. -/
def encodeSpecForm (set : Bool) (id : List Char)
    (parameters : List (List Char × List Char)) : List Char :=
  '<' :: (if set then sSET else sGET)
    ++ (((sID, id) :: parameters).map quoteAttr).flatten
    ++ [' ', '/', '>'] ++ ['\r', '\n']

/-! ### Incoming stream handling -/

/-- `gp3Interface.processIncoming`: split the incoming data on line feeds,
iterate over every element except the last (`i < lines.length - 1`), trim each
line and hand it to `handleXML` unless it is exactly the `<REC />` marker.
The trailing element (non-newline-terminated partial data) is not processed
and is not retained anywhere.  The result is the list of lines handed to
`handleXML`. -/
def gp3ProcessIncoming (data : List Char) : List (List Char) :=
  ((splitLines data).1.map jsTrim).filter (fun l => l != recMarker)

/-- `OpenGazeTracker.processIncoming`: append the new data to
`incomingBuffer`, split on line feeds, keep the popped trailing element as the
new buffer, and hand every complete line, trimmed, to `handleLine`.  Returns
(lines handed to `handleLine`, new buffer). -/
def ogProcessIncoming (buffer data : List Char) : List (List Char) × List Char :=
  ((splitLines (buffer ++ data)).1.map jsTrim, (splitLines (buffer ++ data)).2)

/-! ### Wire Codec: incoming tag parsing

`handleXML` hands each line to the `xml2js` string parser (`sax` in strict
mode, the `xml2js` default) and reads the resulting tag name (`result.ACK` /
`result.CAL` / `result.REC` / other) and its attribute map (`.$`).  The
parser below models that parse for the self-closing single tags of the wire
protocol, `<TAG K1="v1" ... />`, reproducing the strict-mode behaviours that
matter on this alphabet: attribute and tag names must be valid XML names
(here the ASCII name characters; the wire ids are ASCII), an attribute name
followed by anything but `=` is an error ("Attribute without value"), a `&`
in a value must start a valid entity reference and is decoded, a duplicate
attribute name is silently dropped (the first occurrence wins), and any other
malformed input is an error.  Errors are modelled by `none` (`handleXML`
catches the thrown error and produces no record).  Where the model
simplifies, it does so conservatively — rejecting inputs the encoder never
produces (whitespace around `=`, single-quoted values, numeric and HTML
entity references, non-ASCII names) that sax may accept; no theorem below
evaluates the parser on such inputs. -/

/-- Parsed self-closing tag: tag name and attribute list — the shape
`handleXML` consumes. -/
structure ParsedTag where
  tag : List Char
  attrs : List (List Char × List Char)
deriving DecidableEq

/-- ASCII name-start characters of XML names as sax checks them (`nameStart`:
letters, `_`, `:`). -/
def isNameStartChar (c : Char) : Bool :=
  c.isAlpha || c = '_' || c = ':'

/-- ASCII name-body characters of XML names as sax checks them (`nameBody`:
letters, digits, `.`, `-`, `_`, `:`). -/
def isNameBodyChar (c : Char) : Bool :=
  c.isAlphanum || c = '.' || c = '-' || c = '_' || c = ':'

/-- A valid XML attribute (or tag) name on the wire alphabet: nonempty, a
name-start character followed by name-body characters. -/
def validAttrName (k : List Char) : Bool :=
  match k with
  | [] => false
  | c :: rest => isNameStartChar c && rest.all isNameBodyChar

/-- No key occurs twice in a parameter list (sax silently drops duplicate
attributes, so only duplicate-free lists round-trip). -/
def keysDistinct : List (List Char × List Char) → Bool
  | [] => true
  | kv :: rest => !(rest.any (fun kv2 => kv2.1 == kv.1)) && keysDistinct rest

/-- Decode one entity reference after a `&`: the five predefined XML
entities, decoded as sax does.  Anything else is an error in strict mode
(numeric references and the wider HTML entity table sax would also accept
never occur on this wire and are excluded by every hypothesis below). -/
def parseEntity : List Char → Option (Char × List Char)
  | 'a' :: 'm' :: 'p' :: ';' :: rest => some ('&', rest)
  | 'l' :: 't' :: ';' :: rest => some ('<', rest)
  | 'g' :: 't' :: ';' :: rest => some ('>', rest)
  | 'q' :: 'u' :: 'o' :: 't' :: ';' :: rest => some ('"', rest)
  | 'a' :: 'p' :: 'o' :: 's' :: ';' :: rest => some (Char.ofNat 39, rest)
  | _ => none

/-- Parse a double-quoted attribute value up to its closing quote, decoding
entity references and failing on an invalid one, exactly as the sax
quoted-value state does (any character other than the quote and `&` is taken
verbatim).  The fuel only serves structural termination; each step consumes
at least one character, so the input length is always enough. -/
def parseValueF : Nat → List Char → Option (List Char × List Char)
  | _, [] => none
  | 0, _ :: _ => none
  | fuel + 1, c :: rest =>
    if c = '"' then some ([], rest)
    else if c = '&' then
      (parseEntity rest).bind
        (fun d => (parseValueF fuel d.2).map (fun p => (d.1 :: p.1, p.2)))
    else (parseValueF fuel rest).map (fun p => (c :: p.1, p.2))

/-- Parse one `KEY="value"` attribute: a valid name (an invalid name
character is a strict-mode error), then `="`, then the quoted value.
Returns the attribute and the remaining input. -/
def parseOneAttr (l : List Char) :
    Option ((List Char × List Char) × List Char) :=
  match l with
  | [] => none
  | c :: rest =>
    if isNameStartChar c then
      match rest.dropWhile isNameBodyChar with
      | '=' :: '"' :: rest2 =>
        (parseValueF rest2.length rest2).map
          (fun p => ((c :: rest.takeWhile isNameBodyChar, p.1), p.2))
      | _ => none
    else none

/-- Fuelled worker for `parseAttrs`; `seen` carries the attribute names
already taken, so that a duplicate is silently dropped (sax keeps the first
occurrence).  The fuel only serves structural termination; `parseAttrs`
supplies enough of it for the fuel never to run out. -/
def parseAttrsF :
    Nat → List (List Char) → List Char → Option (List (List Char × List Char))
  | _, _, [] => none
  | 0, _, _ :: _ => none
  | fuel + 1, seen, c :: rest =>
    if c = ' ' then
      if rest = ['/', '>'] then some []
      else
        (parseOneAttr rest).bind (fun x =>
          if seen.contains x.1.1 then parseAttrsF fuel seen x.2
          else
            (parseAttrsF fuel (x.1.1 :: seen) x.2).map (fun as => x.1 :: as))
    else none

/-- Parse the attribute section of a self-closing tag: a space followed
either by the closing `/>` at the end of input, or by one attribute and,
recursively, the rest of the attribute section. -/
def parseAttrs (l : List Char) : Option (List (List Char × List Char)) :=
  parseAttrsF l.length [] l

/-- Parse one wire line as a self-closing tag: `<`, a valid tag name (an
invalid first name character is a strict-mode error), then the attribute
section. -/
def parseTag (line : List Char) : Option ParsedTag :=
  match line with
  | [] => none
  | c :: rest =>
    if c = '<' then
      match rest with
      | [] => none
      | t :: rest2 =>
        if isNameStartChar t then
          (parseAttrs (rest2.dropWhile isNameBodyChar)).map
            (fun as => ⟨t :: rest2.takeWhile isNameBodyChar, as⟩)
        else none
    else none

/-- Records produced by the incoming pipeline of `gp3Interface` for one data
chunk: the lines handed to `handleXML`, each parsed; a line that fails to
parse produces no record (the error is caught and logged). -/
def gp3Decode (data : List Char) : List ParsedTag :=
  (gp3ProcessIncoming data).filterMap parseTag

/-! ### Acknowledgement Tracker (`gp3Interface.handleXML` ACK branch,
`gp3Interface.send`) -/

/-- Models JavaScript `hay.includes(needle)`: substring containment. -/
def jsIncludes (hay needle : List Char) : Bool :=
  hay.tails.any (fun t => needle.isPrefixOf t)

/-- The ACK branch of `handleXML`: on receiving an acknowledgement record with
id `id`, the `unacknowledged` list is replaced by
`unacknowledged.filter(msg => !msg.includes(id))`. -/
def ackFilter (id : List Char) (unacknowledged : List (List Char)) :
    List (List Char) :=
  unacknowledged.filter (fun msg => !(jsIncludes msg id))

/-- The `checkAcknowledgement` poll loop of `send`, abstracted over its
environment: `unack k` is the tracker's `unacknowledged` list observed at the
k-th check.  Check `k` runs at elapsed time `k·(max_await/5)`, because the
loop re-schedules itself every `max_await·1000/5` milliseconds ("Check 5
times in the await period"), so `elapsed >= max_await` first holds at check
5.  While the message is still contained in the list and the window has not
elapsed, re-check; once it has elapsed, filter the message out of the list
and resolve `[false, true]`; when the message is no longer contained, resolve
`[true, false]`.  Returns (index of the resolving check, resolved value,
pending list after resolution). -/
def checkAcknowledgement (unack : Nat → List (List Char))
    (message : List Char) : Nat → Nat × (Bool × Bool) × List (List Char)
  | k =>
    if (unack k).contains message then
      if h5 : 5 ≤ k then
        (k, (false, true), (unack k).filter (fun m => m != message))
      else checkAcknowledgement unack message (k + 1)
    else (k, (true, false), unack k)
termination_by k => 6 - k
decreasing_by omega

/-! ### The synchronous part of `gp3Interface.send` -/

/-- Connection and tracker state relevant to `send`: the socket connectedness
flag, the pending (unacknowledged) raw messages, and the messages written to
the socket so far. -/
structure IfaceState where
  isConnected : Bool
  unacknowledged : List (List Char)
  written : List (List Char)
deriving DecidableEq

/-- Immediate result of `send`: either the promise resolves at once with the
`[acknowledged, timedOut]` pair — `(false, false)` when not connected (the
`NotConnected` outcome) and `(true, false)` for fire-and-forget (the `Sent`
outcome) — or the call enters the acknowledgement wait for its message. -/
inductive SendOutcome where
  | immediate (ackTimeout : Bool × Bool)
  | awaitAck (message : List Char)
deriving DecidableEq

/-- The synchronous part of `gp3Interface.send`: refuse when not connected
(no write, no state change, resolve `[false, false]`); otherwise build the
message, write it to the socket, and either resolve `[true, false]`
immediately when `wait_for_acknowledgement` is false, or push the message
onto `unacknowledged` and start the acknowledgement wait. -/
def send (st : IfaceState) (set : Bool) (id : List Char)
    (parameters : List (List Char × List Char)) (wait : Bool) :
    IfaceState × SendOutcome :=
  if !st.isConnected then (st, .immediate (false, false))
  else
    let message := encodeMessage set id parameters
    let st1 : IfaceState :=
      { st with written := st.written ++ [message] }
    if !wait then (st1, .immediate (true, false))
    else ({ st1 with unacknowledged := st1.unacknowledged ++ [message] },
      .awaitAck message)

/-! ### Telemetry decimation (`handleXML`, REC branch) -/

/-- Character list of the frame-counter attribute name `CNT`. -/
def sCNT : List Char := ['C', 'N', 'T']

/-- The decimation guard of the REC branch: `const cnt = rec.CNT ?? null`
followed by the early return `if (cnt % 180 !== 0) return`.  Under the
JavaScript `%` coercion `null` becomes the number 0 and a decimal numeric
string becomes its value, so a record is forwarded to the sink (the debug
output) exactly when this counter value — 0 for an absent attribute — is
divisible by 180. -/
def recForwarded (cnt : Option Nat) : Bool :=
  (match cnt with
   | none => 0
   | some n => n) % 180 == 0

/-- Decimal value of a digit string; models the JavaScript numeric coercion
of the counter attribute strings the device sends. -/
def parseDecimal (s : List Char) : Nat :=
  s.foldl (fun a c => a * 10 + (c.toNat - 48)) 0

/-- Frame counter of a parsed REC record: the value of its `CNT` attribute,
absent when the attribute is missing (`rec.CNT ?? null`). -/
def recCnt (attrs : List (List Char × List Char)) : Option Nat :=
  (attrs.find? (fun kv => kv.1 == sCNT)).map (fun kv => parseDecimal kv.2)

/-! ### Calibration Sequencer (`gp3Interface.calibrate`) -/

/-- Character list of the id `CALIBRATE_RESET`. -/
def sCALIBRATE_RESET : List Char := "CALIBRATE_RESET".data

/-- Character list of the id `CALIBRATE_SHOW`. -/
def sCALIBRATE_SHOW : List Char := "CALIBRATE_SHOW".data

/-- Character list of the id `CALIBRATE_START`. -/
def sCALIBRATE_START : List Char := "CALIBRATE_START".data

/-- Character list of the parameter key `STATE`. -/
def sSTATE : List Char := "STATE".data

/-- One command dispatch of the calibration sequencer, with the absolute time
(milliseconds from the `calibrate` call) at which it is issued. -/
structure TimedSend where
  time : Nat
  mode : Bool
  id : List Char
  parameters : List (List Char × List Char)
deriving DecidableEq

/-- The command schedule of `gp3Interface.calibrate`: `CALIBRATE_RESET` and
`CALIBRATE_SHOW STATE=1` are sent synchronously at time 0; a 1000 ms
`setTimeout` then sends `CALIBRATE_START STATE=1`; a 10000 ms `setTimeout`
nested inside that callback sends `CALIBRATE_SHOW STATE=0`.  Each event
carries its absolute dispatch time. -/
def calibrateTrace : List TimedSend :=
  [⟨0, true, sCALIBRATE_RESET, []⟩,
   ⟨0, true, sCALIBRATE_SHOW, [(sSTATE, ['1'])]⟩,
   ⟨0 + 1000, true, sCALIBRATE_START, [(sSTATE, ['1'])]⟩,
   ⟨0 + 1000 + 10000, true, sCALIBRATE_SHOW, [(sSTATE, ['0'])]⟩]

/-- `calibrate` resolves its promise (with `true`) inside the inner timeout
callback, immediately after the final hide command is issued. -/
def calibrateResolvesAt : Nat := 0 + 1000 + 10000

/-- The value `calibrate` resolves with (`resolve(true)`: completion). -/
def calibrateResult : Bool := true

/-! ### Theorems -/

theorem splitLines_cons (c : Char) (rest : List Char) :
    splitLines (c :: rest) =
      if c = '\n' then ([] :: (splitLines rest).1, (splitLines rest).2)
      else consLine c (splitLines rest) := rfl

theorem splitLines_append (a b : List Char) :
    splitLines (a ++ b) =
      ((splitLines a).1 ++ (splitLines ((splitLines a).2 ++ b)).1,
       (splitLines ((splitLines a).2 ++ b)).2) := by
  induction a with
  | nil => simp [splitLines]
  | cons c a ih =>
    rw [List.cons_append, splitLines_cons c (a ++ b), splitLines_cons c a, ih]
    rcases hsa : splitLines a with ⟨la, pa⟩
    by_cases hc : c = '\n'
    · simp [hc]
    · simp only [if_neg hc]
      cases la with
      | nil =>
        simp only [consLine, List.nil_append]
        rw [List.cons_append, splitLines_cons c (pa ++ b), if_neg hc]
        rcases hm : splitLines (pa ++ b) with ⟨m1, m2⟩
        cases m1 <;> simp [consLine]
      | cons x xs => simp [consLine]

theorem foldl_append_eq_join {α : Type} (f : α → List Char) (l : List α)
    (b : List Char) :
    l.foldl (fun m kv => m ++ f kv) b = b ++ (l.map f).flatten := by
  induction l generalizing b with
  | nil => simp
  | cons x xs ih => simp [ih, List.append_assoc]

/-- C5: `encode` produces exactly the string
`<SET|GET ID="<id>" KEY1="v1" KEY2="v2" ... />\r\n` with parameters emitted in
their given insertion order (the spec-form rendering), and a Command with an
empty parameter list encodes to a self-closing tag whose only attribute is
`ID`. -/
theorem encode_format (set : Bool) (id : List Char)
    (parameters : List (List Char × List Char)) :
    encodeMessage set id parameters = encodeSpecForm set id parameters ∧
    encodeMessage set id [] =
      '<' :: (if set then sSET else sGET)
        ++ [' ', 'I', 'D', '=', '"'] ++ id
        ++ ['"', ' ', '/', '>', '\r', '\n'] := by
  constructor
  · simp [encodeMessage, encodeSpecForm, foldl_append_eq_join,
      List.append_assoc]
  · simp [encodeMessage, quoteAttr, sID, List.append_assoc]

/-- C2 (amended): for `OpenGazeTracker.processIncoming`, which retains
non-newline-terminated trailing data in `incomingBuffer` and prefixes it to
the next call, splitting an input stream at any byte offset across two calls
yields the same handled-line sequence and the same final buffer as processing
the whole stream in one call. -/
theorem ogProcessIncoming_split (s : List Char) (k : Nat) :
    (ogProcessIncoming [] (s.take k)).1 ++
        (ogProcessIncoming (ogProcessIncoming [] (s.take k)).2 (s.drop k)).1 =
      (ogProcessIncoming [] s).1 ∧
    (ogProcessIncoming (ogProcessIncoming [] (s.take k)).2 (s.drop k)).2 =
      (ogProcessIncoming [] s).2 := by
  have h := splitLines_append (s.take k) (s.drop k)
  rw [List.take_append_drop] at h
  constructor <;> simp [ogProcessIncoming, h]

theorem length_dropWhile_le (p : Char → Bool) (l : List Char) :
    (l.dropWhile p).length ≤ l.length := by
  induction l with
  | nil => simp
  | cons c t ih =>
    by_cases h : p c
    · simp only [List.dropWhile_cons, h, if_true, List.length_cons]
      omega
    · simp [List.dropWhile_cons, h]

theorem parseEntity_length {l : List Char} {p : Char × List Char}
    (h : parseEntity l = some p) : p.2.length < l.length := by
  unfold parseEntity at h
  split at h <;> cases h <;> (simp only [List.length_cons]; omega)

theorem parseValueF_length :
    ∀ (fuel : Nat) (l : List Char) (p : List Char × List Char),
      parseValueF fuel l = some p → p.2.length < l.length := by
  intro fuel
  induction fuel with
  | zero =>
    intro l p h
    cases l <;> simp [parseValueF] at h
  | succ f ih =>
    intro l p h
    cases l with
    | nil => simp [parseValueF] at h
    | cons c rest =>
      by_cases hc1 : c = '"'
      · simp only [parseValueF, if_pos hc1] at h
        cases h
        simp
      · by_cases hc2 : c = '&'
        · simp only [parseValueF, if_neg hc1, if_pos hc2,
            Option.bind_eq_some, Option.map_eq_some'] at h
          obtain ⟨d, hd, p', hp', rfl⟩ := h
          have h1 := parseEntity_length hd
          have h2 := ih d.2 p' hp'
          simp only [List.length_cons]
          omega
        · simp only [parseValueF, if_neg hc1, if_neg hc2,
            Option.map_eq_some'] at h
          obtain ⟨p', hp', rfl⟩ := h
          have h2 := ih rest p' hp'
          simp only [List.length_cons]
          omega

theorem parseOneAttr_length {l : List Char}
    {x : (List Char × List Char) × List Char}
    (h : parseOneAttr l = some x) : x.2.length < l.length := by
  cases l with
  | nil => simp [parseOneAttr] at h
  | cons c rest =>
    simp only [parseOneAttr] at h
    by_cases hs : isNameStartChar c = true
    · rw [if_pos hs] at h
      have hlen := length_dropWhile_le isNameBodyChar rest
      split at h
      · next rest2 heq =>
        rw [heq] at hlen
        rw [Option.map_eq_some'] at h
        obtain ⟨p', hp', rfl⟩ := h
        have h2 := parseValueF_length _ _ _ hp'
        simp only [List.length_cons] at hlen ⊢
        omega
      · simp at h
    · rw [if_neg hs] at h
      simp at h

theorem parseAttrsF_congr :
    ∀ {f1 : Nat} {seen : List (List Char)} {l : List Char} {f2 : Nat},
      l.length ≤ f1 → l.length ≤ f2 →
      parseAttrsF f1 seen l = parseAttrsF f2 seen l := by
  intro f1
  induction f1 with
  | zero =>
    intro seen l f2 h1 _
    have : l = [] := by
      cases l with
      | nil => rfl
      | cons c rest => simp at h1
    subst this
    cases f2 <;> rfl
  | succ f1 ih =>
    intro seen l f2 h1 h2
    cases l with
    | nil => cases f2 <;> rfl
    | cons c rest =>
      cases f2 with
      | zero => simp at h2
      | succ f2 =>
        simp only [parseAttrsF]
        cases hm : parseOneAttr rest with
        | none => simp [hm]
        | some x =>
          have hx := parseOneAttr_length hm
          simp only [List.length_cons] at h1 h2
          have hrw1 : parseAttrsF f1 seen x.2 = parseAttrsF f2 seen x.2 :=
            ih (by omega) (by omega)
          have hrw2 : parseAttrsF f1 (x.1.1 :: seen) x.2 =
              parseAttrsF f2 (x.1.1 :: seen) x.2 :=
            ih (by omega) (by omega)
          simp [hm, hrw1, hrw2]

theorem parseAttrs_eq_parseAttrsF {fuel : Nat} {l : List Char}
    (h : l.length ≤ fuel) : parseAttrsF fuel [] l = parseAttrs l :=
  parseAttrsF_congr h (Nat.le_refl _)

theorem takeWhile_append_all {p : Char → Bool} {a : List Char} (b : List Char)
    (h : ∀ c ∈ a, p c = true) : (a ++ b).takeWhile p = a ++ b.takeWhile p := by
  induction a with
  | nil => simp
  | cons c t ih =>
    simp only [List.cons_append, List.takeWhile_cons]
    rw [h c (by simp)]
    simp [ih (fun c hc => h c (by simp [hc]))]

theorem dropWhile_append_all {p : Char → Bool} {a : List Char} (b : List Char)
    (h : ∀ c ∈ a, p c = true) : (a ++ b).dropWhile p = b.dropWhile p := by
  induction a with
  | nil => simp
  | cons c t ih =>
    simp only [List.cons_append, List.dropWhile_cons]
    rw [h c (by simp)]
    simp [ih (fun c hc => h c (by simp [hc]))]

theorem nameStart_nameBody {c : Char} (h : isNameStartChar c = true) :
    isNameBodyChar c = true := by
  simp only [isNameStartChar, Bool.or_eq_true, decide_eq_true_eq] at h
  simp only [isNameBodyChar, Char.isAlphanum, Bool.or_eq_true,
    decide_eq_true_eq]
  tauto

theorem validAttrName_chars {k : List Char} (h : validAttrName k = true) :
    ∀ c ∈ k, isNameBodyChar c = true := by
  cases k with
  | nil => simp [validAttrName] at h
  | cons c0 rest =>
    simp only [validAttrName, Bool.and_eq_true] at h
    intro c hc
    rcases List.mem_cons.mp hc with rfl | hc
    · exact nameStart_nameBody h.1
    · exact List.all_eq_true.mp h.2 c hc

theorem parseValueF_spec (v : List Char) (hv1 : '"' ∉ v) (hv2 : '&' ∉ v) :
    ∀ (rest : List Char) (fuel : Nat), v.length + 1 ≤ fuel →
      parseValueF fuel (v ++ '"' :: rest) = some (v, rest) := by
  induction v with
  | nil =>
    intro rest fuel hf
    cases fuel with
    | zero => omega
    | succ f => simp [parseValueF]
  | cons c v ih =>
    intro rest fuel hf
    cases fuel with
    | zero => simp at hf
    | succ f =>
      have hc1 : ¬(c = '"') := fun hEq => hv1 (hEq ▸ List.mem_cons_self c v)
      have hc2 : ¬(c = '&') := fun hEq => hv2 (hEq ▸ List.mem_cons_self c v)
      rw [List.cons_append]
      simp only [parseValueF, if_neg hc1, if_neg hc2]
      rw [ih (fun hm => hv1 (List.mem_cons_of_mem c hm))
        (fun hm => hv2 (List.mem_cons_of_mem c hm)) rest f
        (by simp only [List.length_cons] at hf; omega)]
      rfl

theorem parseOneAttr_quote (k v rest : List Char)
    (hk : validAttrName k = true) (hv1 : '"' ∉ v) (hv2 : '&' ∉ v) :
    parseOneAttr (k ++ '=' :: '"' :: (v ++ '"' :: rest)) =
      some ((k, v), rest) := by
  cases k with
  | nil => simp [validAttrName] at hk
  | cons c0 krest =>
    simp only [validAttrName, Bool.and_eq_true] at hk
    have hbody : ∀ c ∈ krest, isNameBodyChar c = true :=
      List.all_eq_true.mp hk.2
    simp only [List.cons_append, parseOneAttr, if_pos hk.1]
    rw [dropWhile_append_all _ hbody, takeWhile_append_all _ hbody]
    simp only [List.dropWhile_cons, List.takeWhile_cons,
      show isNameBodyChar '=' = false from rfl, Bool.false_eq_true, if_false,
      List.append_nil]
    rw [parseValueF_spec v hv1 hv2 rest _ (by simp [List.length_append])]
    rfl

theorem parseAttrsF_flatten :
    ∀ (attrs : List (List Char × List Char)) (seen : List (List Char)),
      (∀ kv ∈ attrs, validAttrName kv.1 = true ∧ '"' ∉ kv.2 ∧ '&' ∉ kv.2) →
      keysDistinct attrs = true →
      (∀ kv ∈ attrs, seen.contains kv.1 = false) →
      parseAttrsF ((attrs.map quoteAttr).flatten ++ [' ', '/', '>']).length
          seen ((attrs.map quoteAttr).flatten ++ [' ', '/', '>']) =
        some attrs := by
  intro attrs
  induction attrs with
  | nil =>
    intro seen _ _ _
    rfl
  | cons kv rest ih =>
    intro seen h hd hseen
    obtain ⟨k, v⟩ := kv
    obtain ⟨hk, hv1, hv2⟩ := h (k, v) (by simp)
    simp only [keysDistinct, Bool.and_eq_true, Bool.not_eq_eq_eq_not,
      Bool.not_true, List.any_eq_false] at hd
    have hshape : (((k, v) :: rest).map quoteAttr).flatten ++ [' ', '/', '>'] =
        ' ' :: (k ++ '=' :: '"' ::
          (v ++ '"' :: ((rest.map quoteAttr).flatten ++ [' ', '/', '>']))) := by
      simp [quoteAttr, List.append_assoc]
    rw [hshape]
    have hne : (k ++ '=' :: '"' ::
        (v ++ '"' :: ((rest.map quoteAttr).flatten ++ [' ', '/', '>']))) ≠
        ['/', '>'] := by
      intro hEq
      have := congrArg List.length hEq
      simp at this
      omega
    have hs0 : seen.contains k = false := by
      have := hseen (k, v) (by simp)
      simpa using this
    have hcont : ¬(seen.contains k = true) := by
      rw [hs0]
      simp
    simp only [List.length_cons, parseAttrsF, if_neg hne,
      parseOneAttr_quote k v _ hk hv1 hv2, if_true, Option.some_bind,
      if_neg hcont]
    have hstep : parseAttrsF
        (k ++ '=' :: '"' ::
          (v ++ '"' :: ((rest.map quoteAttr).flatten ++ [' ', '/', '>']))).length
        (k :: seen) ((rest.map quoteAttr).flatten ++ [' ', '/', '>']) =
        parseAttrsF ((rest.map quoteAttr).flatten ++ [' ', '/', '>']).length
          (k :: seen) ((rest.map quoteAttr).flatten ++ [' ', '/', '>']) :=
      parseAttrsF_congr (by simp [List.length_append]; omega) (Nat.le_refl _)
    have hseen2 : ∀ kv ∈ rest, (k :: seen).contains kv.1 = false := by
      intro kv2 hkv2
      have hne2 : (kv2.1 == k) = false := by
        simpa using hd.1 kv2 hkv2
      have hs2 : seen.contains kv2.1 = false := hseen kv2 (by simp [hkv2])
      simp only [List.contains_cons, Bool.or_eq_false_iff]
      exact ⟨hne2, hs2⟩
    rw [hstep, ih (k :: seen) (fun kv2 hkv2 => h kv2 (by simp [hkv2]))
      hd.2 hseen2]
    rfl

theorem parseTag_shape (mode Y : List Char)
    (hmode : validAttrName mode = true) :
    parseTag ('<' :: (mode ++ ' ' :: Y)) =
      (parseAttrs (' ' :: Y)).map (fun as => ⟨mode, as⟩) := by
  cases mode with
  | nil => simp [validAttrName] at hmode
  | cons mc mrest =>
    simp only [validAttrName, Bool.and_eq_true] at hmode
    have hbody : ∀ c ∈ mrest, isNameBodyChar c = true :=
      List.all_eq_true.mp hmode.2
    simp only [List.cons_append, parseTag, if_pos rfl, hmode.1, if_true]
    rw [dropWhile_append_all _ hbody, takeWhile_append_all _ hbody]
    simp [List.dropWhile_cons, List.takeWhile_cons,
      show isNameBodyChar ' ' = false from rfl]

theorem parseTag_encode_body (mode id : List Char)
    (params : List (List Char × List Char))
    (hmode : validAttrName mode = true)
    (hid1 : '"' ∉ id) (hid2 : '&' ∉ id)
    (hp : ∀ kv ∈ params, validAttrName kv.1 = true ∧ '"' ∉ kv.2 ∧ '&' ∉ kv.2)
    (hkeys : keysDistinct ((sID, id) :: params) = true) :
    parseTag ('<' :: (mode ++
        ((((sID, id) :: params).map quoteAttr).flatten ++ [' ', '/', '>']))) =
      some ⟨mode, (sID, id) :: params⟩ := by
  have hattrs : ∀ kv ∈ (sID, id) :: params,
      validAttrName kv.1 = true ∧ '"' ∉ kv.2 ∧ '&' ∉ kv.2 := by
    intro kv hkv
    rcases List.mem_cons.mp hkv with hkv | hkv
    · subst hkv
      exact ⟨(by decide : validAttrName sID = true), hid1, hid2⟩
    · exact hp kv hkv
  have harg : '<' :: (mode ++
      ((((sID, id) :: params).map quoteAttr).flatten ++ [' ', '/', '>'])) =
      '<' :: (mode ++ ' ' :: ((sID ++ '=' :: '"' :: (id ++ ['"'])
        ++ (params.map quoteAttr).flatten) ++ [' ', '/', '>'])) := by
    simp [quoteAttr, List.append_assoc]
  have hback : ' ' :: ((sID ++ '=' :: '"' :: (id ++ ['"'])
      ++ (params.map quoteAttr).flatten) ++ [' ', '/', '>']) =
      (((sID, id) :: params).map quoteAttr).flatten ++ [' ', '/', '>'] := by
    simp [quoteAttr, List.append_assoc]
  rw [harg, parseTag_shape _ _ hmode, hback]
  rw [show parseAttrs
        ((((sID, id) :: params).map quoteAttr).flatten ++ [' ', '/', '>']) =
      some ((sID, id) :: params) from
    parseAttrsF_flatten ((sID, id) :: params) [] hattrs hkeys
      (fun kv _ => rfl)]
  rfl

theorem map_one {α β : Type} (f : α → β) (a : α) : List.map f [a] = [f a] := rfl

theorem splitLines_terminated (x : List Char) (h : '\n' ∉ x) :
    splitLines (x ++ ['\n']) = ([x], []) := by
  induction x with
  | nil => simp [splitLines]
  | cons c t ih =>
    have hc : ¬(c = '\n') := fun hEq => h (hEq ▸ List.mem_cons_self c t)
    have ht : '\n' ∉ t := fun hm => h (List.mem_cons_of_mem c hm)
    simp only [List.cons_append, splitLines_cons, if_neg hc, ih ht, consLine]

theorem jsTrim_tag (mid : List Char) :
    jsTrim ('<' :: (mid ++ ['>', '\r'])) = '<' :: (mid ++ ['>']) := by
  unfold jsTrim
  rw [List.dropWhile_cons]
  simp only [show jsWhitespaceChar '<' = false from rfl, Bool.false_eq_true,
    if_false]
  rw [show ('<' :: (mid ++ ['>', '\r'])).reverse =
      '\r' :: ('>' :: (mid.reverse ++ ['<'])) from by simp]
  rw [List.dropWhile_cons]
  simp only [show jsWhitespaceChar '\r' = true from rfl, if_true]
  rw [List.dropWhile_cons]
  simp only [show jsWhitespaceChar '>' = false from rfl, Bool.false_eq_true,
    if_false]
  simp

theorem mem_quoteAttr {c : Char} {kv : List Char × List Char}
    (h : c ∈ quoteAttr kv) :
    c = ' ' ∨ c ∈ kv.1 ∨ c = '=' ∨ c = '"' ∨ c ∈ kv.2 := by
  simp [quoteAttr] at h
  tauto

/-- C3 (amended): decoding the encoded form of a Command yields exactly one
record with the same mode word as tag, and the `ID` attribute followed by the
same parameter key/value list, provided the Command stays inside what the
unescaping-free encoder and the strict XML parse can round-trip: parameter
keys are valid XML attribute names, no key occurs twice nor equals `ID`
(sax silently drops duplicate attributes), and the id and values contain no
double quote, no ampersand and no line feed. -/
theorem decode_encode (set : Bool) (id : List Char)
    (params : List (List Char × List Char))
    (hid : '"' ∉ id) (hida : '&' ∉ id) (hidn : '\n' ∉ id)
    (hp : ∀ kv ∈ params,
      validAttrName kv.1 = true ∧ '"' ∉ kv.2 ∧ '&' ∉ kv.2 ∧ '\n' ∉ kv.2)
    (hkeys : keysDistinct ((sID, id) :: params) = true) :
    gp3Decode (encodeMessage set id params) =
      [⟨if set then sSET else sGET, (sID, id) :: params⟩] := by
  have hmodeValid : validAttrName (if set then sSET else sGET) = true := by
    cases set <;> decide
  have hmodeNl : '\n' ∉ (if set then sSET else sGET) := by
    cases set <;> decide
  have hattrsNl : '\n' ∉ (((sID, id) :: params).map quoteAttr).flatten := by
    intro hmem
    rw [List.mem_flatten] at hmem
    obtain ⟨l, hl, hcl⟩ := hmem
    rw [List.mem_map] at hl
    obtain ⟨kv, hkv, rfl⟩ := hl
    rcases List.mem_cons.mp hkv with rfl | hkv2
    · rcases mem_quoteAttr hcl with h | h | h | h | h
      · exact absurd h (by decide)
      · simp [sID] at h
      · exact absurd h (by decide)
      · exact absurd h (by decide)
      · exact hidn h
    · obtain ⟨h1, h2, h3, h4⟩ := hp kv hkv2
      rcases mem_quoteAttr hcl with h | h | h | h | h
      · exact absurd h (by decide)
      · exact absurd (validAttrName_chars h1 '\n' h) (by decide)
      · exact absurd h (by decide)
      · exact absurd h (by decide)
      · exact h4 h
  have hX : encodeMessage set id params =
      ('<' :: ((if set then sSET else sGET) ++
        ((((sID, id) :: params).map quoteAttr).flatten
          ++ [' ', '/', '>', '\r']))) ++ ['\n'] := by
    simp [encodeMessage, foldl_append_eq_join, List.append_assoc]
  have hXnl : '\n' ∉ '<' :: ((if set then sSET else sGET) ++
      ((((sID, id) :: params).map quoteAttr).flatten
        ++ [' ', '/', '>', '\r'])) := by
    intro h
    rcases List.mem_cons.mp h with h | h
    · exact absurd h (by decide)
    rcases List.mem_append.mp h with h | h
    · exact hmodeNl h
    rcases List.mem_append.mp h with h | h
    · exact hattrsNl h
    · exact absurd h (by decide)
  unfold gp3Decode gp3ProcessIncoming
  rw [hX, splitLines_terminated _ hXnl]
  simp only [map_one]
  have hmid : (if set then sSET else sGET) ++
      ((((sID, id) :: params).map quoteAttr).flatten ++ [' ', '/', '>', '\r']) =
      ((if set then sSET else sGET) ++
        ((((sID, id) :: params).map quoteAttr).flatten ++ [' ', '/'])) ++
        ['>', '\r'] := by
    simp [List.append_assoc]
  rw [hmid, jsTrim_tag]
  have hbodyNe : (('<' :: (((if set then sSET else sGET) ++
      ((((sID, id) :: params).map quoteAttr).flatten ++ [' ', '/'])) ++ ['>']))
        != recMarker) = true := by
    cases set <;> simp [bne_iff_ne, recMarker, sSET, sGET]
  rw [List.filter_cons]
  simp only [hbodyNe, if_true, List.filter_nil]
  have hbodyShape : '<' :: (((if set then sSET else sGET) ++
      ((((sID, id) :: params).map quoteAttr).flatten ++ [' ', '/'])) ++ ['>']) =
      '<' :: ((if set then sSET else sGET) ++
        ((((sID, id) :: params).map quoteAttr).flatten ++ [' ', '/', '>'])) := by
    simp [List.append_assoc]
  rw [hbodyShape, List.filterMap_cons,
    parseTag_encode_body _ _ _ hmodeValid hid hida
      (fun kv hkv =>
        ⟨(hp kv hkv).1, (hp kv hkv).2.1, (hp kv hkv).2.2.1⟩)
      hkeys]
  simp

/-- C3 witness: concrete round trip for a `SET` command with id `A` and one
parameter `K="1"`. -/
theorem decode_encode_witness :
    gp3Decode (encodeMessage true ['A'] [(['K'], ['1'])]) =
      [⟨sSET, [(sID, ['A']), (['K'], ['1'])]⟩] := by
  have h := decode_encode true ['A'] [(['K'], ['1'])]
    (by decide) (by decide) (by decide) (by decide) (by decide)
  simpa using h

/-- C3 counterexample: the round trip does not hold for every Command.  A
parameter value containing a double quote — which `send` does not escape —
makes the encoded line unparsable, so decoding yields zero records instead of
one record with the same parameter set. -/
theorem decode_encode_counterexample :
    gp3Decode (encodeMessage true ['A'] [(['K'], ['x', '"', 'y'])]) = [] := by
  decide

/-- C2 counterexample: `gp3Interface.processIncoming` keeps no partial-line
buffer, so splitting a valid two-line stream in the middle of the second line
drops that line: the concatenated record sequences of the two calls differ
from the single-call decode. -/
theorem gp3Decode_split_counterexample :
    gp3Decode ((encodeMessage true ['A'] [] ++ encodeMessage true ['B'] []).take 20)
        ++ gp3Decode ((encodeMessage true ['A'] []
          ++ encodeMessage true ['B'] []).drop 20) ≠
      gp3Decode (encodeMessage true ['A'] [] ++ encodeMessage true ['B'] []) := by
  decide

theorem jsIncludes_iff {hay needle : List Char} :
    jsIncludes hay needle = true ↔ needle <:+: hay := by
  unfold jsIncludes
  rw [List.any_eq_true]
  constructor
  · rintro ⟨t, ht, hpre⟩
    rw [List.mem_tails] at ht
    rw [List.isPrefixOf_iff_prefix] at hpre
    exact List.infix_iff_prefix_suffix.mpr ⟨t, hpre, ht⟩
  · intro h
    obtain ⟨t, hpre, hsuf⟩ := List.infix_iff_prefix_suffix.mp h
    exact ⟨t, (List.mem_tails _ _).mpr hsuf, List.isPrefixOf_iff_prefix.mpr hpre⟩

/-- C1 (amended): on receiving an acknowledgement record, the tracker removes
every pending entry whose raw message text contains the record's id as a
substring — later entries with the same id and entries merely containing the
id included — and keeps, in order, exactly the entries not containing the
id. -/
theorem ackFilter_removes_all (id : List Char) (unack : List (List Char)) :
    ∀ m, m ∈ ackFilter id unack ↔ m ∈ unack ∧ ¬ id <:+: m := by
  intro m
  simp only [ackFilter, List.mem_filter, Bool.not_eq_eq_eq_not, Bool.not_true,
    ← jsIncludes_iff]
  constructor
  · rintro ⟨h1, h2⟩
    exact ⟨h1, by simp [h2]⟩
  · rintro ⟨h1, h2⟩
    exact ⟨h1, by simpa using h2⟩

/-- C1 counterexample: with two pending entries for the same id `A`, an
acknowledgement for `A` empties the pending set instead of leaving the later
same-id entry behind as the claim predicts. -/
theorem ackFilter_counterexample :
    ackFilter ['A']
      [encodeMessage true ['A'] [], encodeMessage true ['A'] []] = [] ∧
    ([] : List (List Char)) ≠ [encodeMessage true ['A'] []] := by
  constructor
  · decide
  · decide

theorem checkAck_pending (unack : Nat → List (List Char))
    (message : List Char) :
    ∀ n k, k + n = 5 →
      (∀ j, k ≤ j → j ≤ 5 → ((unack j).contains message) = true) →
      checkAcknowledgement unack message k =
        (5, (false, true), (unack 5).filter (fun m => m != message)) := by
  intro n
  induction n with
  | zero =>
    intro k hk hall
    have hk5 : k = 5 := by omega
    subst hk5
    have hmem : message ∈ unack 5 := by
      simpa using hall 5 (Nat.le_refl 5) (Nat.le_refl 5)
    unfold checkAcknowledgement
    simp [hmem]
  | succ n ih =>
    intro k hk hall
    unfold checkAcknowledgement
    simp only [hall k (Nat.le_refl k) (by omega), if_true,
      dif_neg (show ¬ 5 ≤ k by omega)]
    exact ih (k + 1) (by omega) (fun j hj1 hj2 => hall j (by omega) hj2)

theorem checkAck_acked (unack : Nat → List (List Char)) (message : List Char) :
    ∀ n k, k + n = 5 →
      ((unack 5).contains message) = false →
      ∃ j, k ≤ j ∧ j ≤ 5 ∧
        checkAcknowledgement unack message k = (j, (true, false), unack j) := by
  intro n
  induction n with
  | zero =>
    intro k hk h5
    have hk5 : k = 5 := by omega
    subst hk5
    refine ⟨5, Nat.le_refl 5, Nat.le_refl 5, ?_⟩
    have hnm : message ∉ unack 5 := by simpa using h5
    unfold checkAcknowledgement
    simp [hnm]
  | succ n ih =>
    intro k hk h5
    by_cases hc : ((unack k).contains message) = true
    · obtain ⟨j, hj1, hj2, hj3⟩ := ih (k + 1) (by omega) h5
      refine ⟨j, by omega, hj2, ?_⟩
      unfold checkAcknowledgement
      simp only [hc, if_true, dif_neg (show ¬ 5 ≤ k by omega)]
      exact hj3
    · refine ⟨k, Nat.le_refl k, by omega, ?_⟩
      rw [Bool.not_eq_true] at hc
      have hnm : message ∉ unack k := by simpa using hc
      unfold checkAcknowledgement
      simp [hnm]

/-- C4: for a confirmation-seeking send of `message` while connected, with
the poll loop checking at the 5 evenly spaced intervals of the timeout window
(check `k` at elapsed `k·T/5`, so check 5 falls at elapsed time `T`): if a
matching acknowledgement removes the pending entry at or before some check of
the window, the wait resolves `[true, false]` (Acknowledged) at a check index
at most 5; if no acknowledgement arrives (the entry stays pending through
every check), the wait resolves `[false, true]` (TimedOut) exactly at check 5
— time `T`, within one poll interval — and the pending entry is removed from
the list upon timeout. -/
theorem send_ack_poll (unack : Nat → List (List Char)) (message : List Char)
    (hmono : ∀ j1 j2, j1 ≤ j2 → ((unack j1).contains message) = false →
      ((unack j2).contains message) = false) :
    ((∃ j, j ≤ 5 ∧ ((unack j).contains message) = false) →
      ∃ j, j ≤ 5 ∧ checkAcknowledgement unack message 0 =
        (j, (true, false), unack j)) ∧
    ((∀ j, j ≤ 5 → ((unack j).contains message) = true) →
      checkAcknowledgement unack message 0 =
        (5, (false, true), (unack 5).filter (fun m => m != message)) ∧
      message ∉ (unack 5).filter (fun m => m != message)) := by
  constructor
  · rintro ⟨j, hj, hjf⟩
    obtain ⟨j', _, hj2, hj3⟩ :=
      checkAck_acked unack message 5 0 (by omega) (hmono j 5 hj hjf)
    exact ⟨j', hj2, hj3⟩
  · intro hall
    refine ⟨checkAck_pending unack message 5 0 (by omega)
      (fun j _ hj2 => hall j hj2), ?_⟩
    simp [List.mem_filter]

/-- C4 witness: with the message pending at every check (no acknowledgement
ever delivered), the wait from check 0 times out at check 5 and the entry is
removed. -/
theorem send_ack_poll_witness :
    checkAcknowledgement (fun _ => [encodeMessage true ['A'] []])
      (encodeMessage true ['A'] []) 0 = (5, (false, true), []) := by
  have h := send_ack_poll (fun _ => [encodeMessage true ['A'] []])
    (encodeMessage true ['A'] []) (fun j1 j2 _ hf => absurd hf (by simp))
  have h2 := (h.2 (fun j _ => by simp)).1
  simpa using h2

/-- C8: a send attempted while not connected writes nothing, leaves the whole
state (pending set included) unchanged, and resolves the `[false, false]`
(`NotConnected`) outcome, which differs both from the acknowledged/sent
outcome `[true, false]` and from the timed-out outcome `[false, true]`.  The
model is a total function: the call returns a value instead of throwing. -/
theorem send_not_connected (st : IfaceState) (set : Bool) (id : List Char)
    (parameters : List (List Char × List Char)) (wait : Bool)
    (h : st.isConnected = false) :
    send st set id parameters wait = (st, .immediate (false, false)) ∧
    SendOutcome.immediate (false, false) ≠ .immediate (true, false) ∧
    SendOutcome.immediate (false, false) ≠ .immediate (false, true) := by
  refine ⟨?_, by decide, by decide⟩
  simp [send, h]

/-- C8 witness: a concrete disconnected send. -/
theorem send_not_connected_witness :
    send ⟨false, [], []⟩ true ['A'] [] true =
      (⟨false, [], []⟩, .immediate (false, false)) :=
  (send_not_connected ⟨false, [], []⟩ true ['A'] [] true rfl).1

/-- C10: a fire-and-forget send (`wait_for_acknowledgement = false`) while
connected writes the encoded message but leaves `unacknowledged` exactly
unchanged — no pending entry is created — and resolves immediately with the
`[true, false]` (`Sent`) outcome. -/
theorem send_fire_and_forget (st : IfaceState) (set : Bool) (id : List Char)
    (parameters : List (List Char × List Char))
    (h : st.isConnected = true) :
    (send st set id parameters false).1.unacknowledged = st.unacknowledged ∧
    (send st set id parameters false).2 = .immediate (true, false) ∧
    (send st set id parameters false).1.written =
      st.written ++ [encodeMessage set id parameters] := by
  simp [send, h]

/-- C10 witness: a concrete connected fire-and-forget send. -/
theorem send_fire_and_forget_witness :
    (send ⟨true, [], []⟩ true ['A'] [] false).1.unacknowledged = [] ∧
    (send ⟨true, [], []⟩ true ['A'] [] false).2 = .immediate (true, false) := by
  have h := send_fire_and_forget ⟨true, [], []⟩ true ['A'] [] rfl
  exact ⟨h.1, h.2.1⟩

/-- C9: a REC record with no `CNT` attribute is forwarded rather than
suppressed: the absent counter is `null`, the `%` coercion turns it into 0,
and `0 % 180 = 0` defeats the early return. -/
theorem rec_without_cnt_forwarded (attrs : List (List Char × List Char))
    (h : attrs.find? (fun kv => kv.1 == sCNT) = none) :
    recForwarded (recCnt attrs) = true := by
  simp [recCnt, h, recForwarded]

/-- C9 witness: a record carrying only a gaze field and no counter. -/
theorem rec_without_cnt_forwarded_witness :
    recForwarded (recCnt [(['F', 'P', 'O', 'G', 'X'], ['0'])]) = true :=
  rec_without_cnt_forwarded [(['F', 'P', 'O', 'G', 'X'], ['0'])] (by decide)

/-- C6 (amended): among 180 telemetry records whose frame counters are the
consecutive values `c, c+1, …, c+179`, exactly one passes the decimation
guard and is forwarded to the sink — and any forwarded counter is divisible
by 180. -/
theorem decimation_consecutive (c : Nat) :
    (∃! i, i < 180 ∧ recForwarded (some (c + i)) = true) ∧
    ∀ i, i < 180 → recForwarded (some (c + i)) = true → (c + i) % 180 = 0 := by
  have hfwd : ∀ n : Nat, recForwarded (some n) = true ↔ n % 180 = 0 := by
    intro n
    simp [recForwarded]
  constructor
  · refine ⟨(180 - c % 180) % 180, ⟨by omega, ?_⟩, ?_⟩
    · rw [hfwd]
      omega
    · rintro j ⟨hj, hjf⟩
      rw [hfwd] at hjf
      omega
  · intro i _ hf
    rw [hfwd] at hf
    exact hf

set_option maxRecDepth 10000 in
/-- C6 counterexample: the claim as stated, over records with merely strictly
increasing frame counters, fails — the 180 strictly increasing odd counters
1, 3, …, 359 contain no multiple of 180, so no record at all is forwarded
instead of exactly one. -/
theorem decimation_counterexample :
    (((List.range 180).map (fun i => 2 * i + 1)).countP
        (fun n => recForwarded (some n))) = 0 ∧
    ((List.range 180).map (fun i => 2 * i + 1)).Pairwise (· < ·) ∧
    ((List.range 180).map (fun i => 2 * i + 1)).length = 180 := by
  refine ⟨by decide, ?_, by decide⟩
  refine List.Pairwise.map _ ?_ (List.pairwise_lt_range 180)
  intro a b h
  omega

/-- C7: running the device-level calibration and advancing time past the
nested delays issues exactly the commands Reset, Show(state=1),
Start(state=1) in that order, followed by Show(state=0); Start is sent 1000
ms (D1 ≈ 1 s) after the overlay-show at time 0, the hide 11000 ms after it —
within the 10–12 s window D2 measured from overlay-show; and the run resolves
`true` (Complete) exactly at the time the final hide command is issued, not
before any scheduled command. -/
theorem calibrate_schedule :
    calibrateTrace.map (fun e => (e.mode, e.id, e.parameters)) =
      [(true, sCALIBRATE_RESET, []),
       (true, sCALIBRATE_SHOW, [(sSTATE, ['1'])]),
       (true, sCALIBRATE_START, [(sSTATE, ['1'])]),
       (true, sCALIBRATE_SHOW, [(sSTATE, ['0'])])] ∧
    calibrateTrace.map (fun e => e.time) = [0, 0, 1000, 11000] ∧
    (1000 - 0 = 1000 ∧ 10000 ≤ 11000 - 0 ∧ 11000 - 0 ≤ 12000) ∧
    (∀ e ∈ calibrateTrace, e.time ≤ calibrateResolvesAt) ∧
    calibrateResolvesAt = 11000 ∧ calibrateResult = true := by
  refine ⟨by decide, by decide, by decide, ?_, by decide, by decide⟩
  intro e he
  fin_cases he <;> decide

end GP3

